import Mathlib

/-!
Verification development for the pymanoid differential inverse-kinematics
velocity solvers (`src/pymanoid/inverse_kinematics.py`, `src/pymanoid/ik.py`).

Shallow embedding conventions:
- numpy scalars are modelled as rationals (ℚ);
- fixed-dimension numpy vectors over the joint space are `Fin n → ℚ`,
  task-space vectors (whose dimension varies per task) are `List ℚ`,
  task Jacobians are row lists `List (Fin n → ℚ)` (each row has `n` columns);
- Python dicts are association lists `List (String × β)` with first-match
  lookup; keys are kept unique by inserting via erase-then-cons, so the
  key-to-value map coincides with dict semantics;
- a Python function that can raise returns the post-call state together with
  an `Option PyExc` (mutations performed before the raise point persist in
  the returned state, as they do in Python);
- the external QP solver (`from qp import solve_qp` / `from optim import
  solve_qp`, not part of this repository) is a parameter `ext` of the
  velocity-computation functions; its arguments are passed in the dynamic
  `List (List ℚ)` form that mirrors numpy arrays.
-/

/-- Squared Euclidean norm `dot(e, e)` of a task-space vector. -/
def sqnorm (e : List ℚ) : ℚ :=
  (e.map (fun x => x * x)).sum

/-- Entry `(i, j)` of `dot(J.T, J)` for a row-list Jacobian `J`. -/
def gram {n : ℕ} (J : List (Fin n → ℚ)) : Fin n → Fin n → ℚ :=
  fun i j => (J.map (fun row => row i * row j)).sum

/-- Entry `j` of `dot(-e.T, J)`: the row vector `-eᵀ J`. -/
def negETJ {n : ℕ} (e : List ℚ) (J : List (Fin n → ℚ)) : Fin n → ℚ :=
  fun j => ((e.zip J).map (fun p => -p.1 * p.2 j)).sum

/-- Conversion of a square `Fin`-indexed matrix to the dynamic list form
passed to the external QP solver. -/
def matToList {n : ℕ} (M : Fin n → Fin n → ℚ) : List (List ℚ) :=
  (List.finRange n).map (fun i => (List.finRange n).map (fun j => M i j))

/-- Conversion of a `Fin`-indexed vector to the dynamic list form. -/
def vecToList {n : ℕ} (v : Fin n → ℚ) : List ℚ :=
  (List.finRange n).map v

/-- Rows of the identity matrix `eye(n)` in dynamic list form. -/
def eyeL (n : ℕ) : List (List ℚ) :=
  (List.range n).map (fun i => (List.range n).map (fun j => if i = j then 1 else 0))

/-- Elementwise negation of a dynamic matrix (numpy unary minus). -/
def negL (M : List (List ℚ)) : List (List ℚ) :=
  M.map (fun row => row.map (fun x => -x))

/-- Scalar multiple of a dynamic matrix. -/
def smulL (c : ℚ) (M : List (List ℚ)) : List (List ℚ) :=
  M.map (fun row => row.map (fun x => c * x))

/-- Dynamic zero matrix `zeros((m, n))`. -/
def zerosL (m n : ℕ) : List (List ℚ) :=
  (List.range m).map (fun _ => (List.range n).map (fun _ => (0 : ℚ)))

/-- Horizontal block concatenation of two dynamic matrices (one `bmat` row). -/
def hcatL (A B : List (List ℚ)) : List (List ℚ) :=
  (A.zip B).map (fun p => p.1 ++ p.2)

/-- Python exceptions raised or propagated by the embedded code.  The generic
`Exception`/`AssertionError` instances raised by `DiffIKSolver.add_task` are
distinguished by their role, each carrying the message built by the source. -/
inductive PyExc where
  | duplicateTask (msg : String)
  | missingGain (msg : String)
  | missingWeight (msg : String)
  | invalidGain (msg : String)
  | invalidWeight (msg : String)
  | keyError (key : String)
  | valueError (args : List String)
  | ikError (msg : String)
  | typeError (msg : String)
  deriving DecidableEq

/-- Association-list lookup with first-match semantics (Python dict read). -/
def alookup {β : Type} : List (String × β) → String → Option β
  | [], _ => none
  | p :: ps, k => if p.1 = k then some p.2 else alookup ps k

/-- Association-list key removal (Python `del d[k]`; removing an absent key is
the identity, used only where the source guards the deletion). -/
def aerase {β : Type} : List (String × β) → String → List (String × β)
  | [], _ => []
  | p :: ps, k => if p.1 = k then aerase ps k else p :: aerase ps k

/-- Association-list insertion (Python `d[k] = v`): overwrite any existing
binding for `k`. -/
def ainsert {β : Type} (l : List (String × β)) (k : String) (v : β) :
    List (String × β) :=
  (k, v) :: aerase l k

/-- Removal of a name from the task name list (Python `del self.tasks[k]`,
with `self.tasks` a dict from names to `True`, i.e. a name set). -/
def serase : List String → String → List String
  | [], _ => []
  | s :: ss, k => if s = k then serase ss k else s :: serase ss k

/-- Error function of a function-pair task: `error(q, qd, dt)` returning a
task-space vector. -/
abbrev ErrFn (n : ℕ) : Type :=
  (Fin n → ℚ) → (Fin n → ℚ) → ℚ → List ℚ

/-- Jacobian function of a function-pair task: `jacobian(q)` returning a
matrix with `n` columns, as a list of rows. -/
abbrev JacFn (n : ℕ) : Type :=
  (Fin n → ℚ) → List (Fin n → ℚ)

/-- Type of the external QP solver `solve_qp(P, q, G, h)`, a collaborator
outside this repository, taken in dynamic numpy-like form. -/
abbrev ExtSolver : Type :=
  List (List ℚ) → List ℚ → List (List ℚ) → List ℚ → Except PyExc (List ℚ)

/-- State of `DiffIKSolver` (`inverse_kinematics.py`).  The `I` field of the
source is the identity `eye(n)`, recovered from the dimension `n`; the
`tasks_lock` guards critical sections and has no sequential content. -/
structure DiffIKSolver (n : ℕ) where
  K_doflim : ℚ
  default_gains : List (String × ℚ)
  default_weights : List (String × ℚ)
  errors : List (String × ErrFn n)
  gains : List (String × ℚ)
  jacobians : List (String × JacFn n)
  q_max : Fin n → ℚ
  q_min : Fin n → ℚ
  qd_max : Fin n → ℚ
  qd_min : Fin n → ℚ
  tasks : List String
  weights : List (String × ℚ)

namespace DiffIKSolver

/-- `DiffIKSolver.__init__`: velocity bounds are `±qd_lim * ones(n)`, default
gain/weight tables start from the optional constructor arguments, every
registry dict starts empty. -/
def init (n : ℕ) (q_max q_min : Fin n → ℚ) (qd_lim K_doflim : ℚ)
    (gains weights : List (String × ℚ)) : DiffIKSolver n :=
  { K_doflim := K_doflim
    default_gains := gains
    default_weights := weights
    errors := []
    gains := []
    jacobians := []
    q_max := q_max
    q_min := q_min
    qd_max := fun _ => qd_lim
    qd_min := fun _ => -qd_lim
    tasks := []
    weights := [] }

/-- Tolerance `1. + 1e-10` of the gain assertion in `add_task`, written as a
single normalized rational (`onePlusEps_eq` below identifies it with
`1 + 1/10^10`). -/
def onePlusEps : ℚ :=
  mkRat 10000000001 10000000000

/-- Message of the missing-gain exception, including the `task_type` clause
when one was provided (source quoting elided). -/
def noGainMsg (name : String) (task_type : Option String) : String :=
  "No gain provided for task " ++ name ++
    (match task_type with
     | some tt => " (task_type=" ++ tt ++ ")"
     | none => "")

/-- Message of the missing-weight exception, including the `task_type` clause
when one was provided (source quoting elided). -/
def noWeightMsg (name : String) (task_type : Option String) : String :=
  "No weight provided for task " ++ name ++
    (match task_type with
     | some tt => " (task_type=" ++ tt ++ ")"
     | none => "")

/-- Message of the gain-range assertion (numeric interpolation elided). -/
def invalidGainMsg : String :=
  "Task gains should be between 0. and 1"

/-- Message of the weight-positivity assertion. -/
def invalidWeightMsg : String :=
  "Task weights should be positive"

/-- The gain-resolution block of `add_task`: under `unit_gain` any stale gain
entry is deleted; otherwise the explicit gain, the per-name default and the
per-`task_type` default are tried in order, and exhaustion raises the
missing-gain exception. -/
def gainStep {n : ℕ} (s1 : DiffIKSolver n) (name : String) (gain : Option ℚ)
    (task_type : Option String) (unit_gain : Bool) :
    DiffIKSolver n × Option PyExc :=
  if unit_gain then
    ({ s1 with gains := aerase s1.gains name }, none)
  else
    match gain with
    | some g => ({ s1 with gains := ainsert s1.gains name g }, none)
    | none =>
      match alookup s1.default_gains name with
      | some g => ({ s1 with gains := ainsert s1.gains name g }, none)
      | none =>
        match task_type.bind (alookup s1.default_gains) with
        | some g => ({ s1 with gains := ainsert s1.gains name g }, none)
        | none => (s1, some (.missingGain (noGainMsg name task_type)))

/-- The weight-resolution block of `add_task`: the explicit weight, the
per-name default and the per-`task_type` default are tried in order, and
exhaustion raises the missing-weight exception. -/
def weightStep {n : ℕ} (s2 : DiffIKSolver n) (name : String)
    (weight : Option ℚ) (task_type : Option String) :
    DiffIKSolver n × Option PyExc :=
  match weight with
  | some w => ({ s2 with weights := ainsert s2.weights name w }, none)
  | none =>
    match alookup s2.default_weights name with
    | some w => ({ s2 with weights := ainsert s2.weights name w }, none)
    | none =>
      match task_type.bind (alookup s2.default_weights) with
      | some w => ({ s2 with weights := ainsert s2.weights name w }, none)
      | none => (s2, some (.missingWeight (noWeightMsg name task_type)))

/-- `DiffIKSolver.add_task`.  Returns the state after the call together with
the raised exception, if any; mutations performed before the raise point
persist, exactly as in Python.  The statement order follows the source:
duplicate check, insertion into `tasks`/`errors`/`jacobians`, gain
resolution, weight resolution, gain assertion, weight assertion. -/
def add_task {n : ℕ} (s : DiffIKSolver n) (name : String) (error : ErrFn n)
    (jacobian : JacFn n) (gain : Option ℚ) (weight : Option ℚ)
    (task_type : Option String) (unit_gain : Bool) :
    DiffIKSolver n × Option PyExc :=
  if name ∈ s.tasks then
    (s, some (.duplicateTask ("Task " ++ name ++ " already present in IK")))
  else
    let s1 : DiffIKSolver n :=
      { s with
        tasks := s.tasks ++ [name]
        errors := ainsert s.errors name error
        jacobians := ainsert s.jacobians name jacobian }
    match gainStep s1 name gain task_type unit_gain with
    | (s2, some e) => (s2, some e)
    | (s2, none) =>
      match weightStep s2 name weight task_type with
      | (s3, some e) => (s3, some e)
      | (s3, none) =>
        -- assert unit_gain or self.gains[name] < 1. + 1e-10
        if ¬ unit_gain ∧ ¬ ((alookup s3.gains name).getD 0 < onePlusEps) then
          (s3, some (.invalidGain invalidGainMsg))
        -- assert self.weights[name] > 0.
        else if ¬ ((alookup s3.weights name).getD 0 > 0) then
          (s3, some (.invalidWeight invalidWeightMsg))
        else
          (s3, none)

/-- `DiffIKSolver.remove_task`.  Returns the state after the call together
with the warnings emitted (the unknown-name path warns and returns without
raising). -/
def remove_task {n : ℕ} (s : DiffIKSolver n) (name : String) :
    DiffIKSolver n × List String :=
  if name ∈ s.tasks then
    ({ s with tasks := serase s.tasks name }, [])
  else
    (s, ["no task " ++ name ++ " to remove"])

/-- The inner `cost(task)` helper of `compute_cost`:
`weights[task] * dot(e, e)` with `e = errors[task](q, qd, dt)`; `none` models
the `KeyError` raised when a dict entry is missing. -/
def costOf {n : ℕ} (s : DiffIKSolver n) (q qd : Fin n → ℚ) (dt : ℚ)
    (task : String) : Option ℚ :=
  (alookup s.weights task).bind (fun w =>
    (alookup s.errors task).map (fun e => w * sqnorm (e q qd dt)))

/-- `DiffIKSolver.compute_cost`: `sum(cost(task) for task in self.tasks)`. -/
def compute_cost {n : ℕ} (s : DiffIKSolver n) (q qd : Fin n → ℚ) (dt : ℚ) :
    Option ℚ :=
  s.tasks.foldlM (fun acc task => (costOf s q qd dt task).map (acc + ·)) 0

/-- Per-task contribution of the `compute_velocity` accumulation loop:
`J = jacobians[task](q)`; `e = gains[task] * (errors[task](q, qd, dt) / dt)`
when the task has a gain entry, else (unit-gain tasks) `e = errors[task](q,
qd, dt)`; the pair `(weight * dot(J.T, J), weight * dot(-e.T, J))` is added to
the accumulators.  `none` models a `KeyError` on a missing dict entry. -/
def taskTerm {n : ℕ} (s : DiffIKSolver n) (q qd : Fin n → ℚ) (dt : ℚ)
    (task : String) : Option ((Fin n → Fin n → ℚ) × (Fin n → ℚ)) :=
  (alookup s.jacobians task).bind (fun jac =>
    let J := jac q
    let eOpt : Option (List ℚ) :=
      match alookup s.gains task with
      | some g => (alookup s.errors task).map
          (fun err => (err q qd dt).map (fun x => g * (x / dt)))
      | none => (alookup s.errors task).map (fun err => err q qd dt)
    eOpt.bind (fun e =>
      (alookup s.weights task).map (fun w =>
        (w • gram J, w • negETJ e J))))

/-- The `(P, r)` accumulation loop of `DiffIKSolver.compute_velocity`,
starting from `zeros(self.I.shape)` and `zeros(self.q_max.shape)`. -/
def assemble {n : ℕ} (s : DiffIKSolver n) (q qd : Fin n → ℚ) (dt : ℚ) :
    Option ((Fin n → Fin n → ℚ) × (Fin n → ℚ)) :=
  s.tasks.foldlM (fun acc task => (taskTerm s q qd dt task).map (acc + ·)) (0, 0)

/-- The `qd_max` bound of `DiffIKSolver.compute_velocity`:
`minimum(self.qd_max, self.K_doflim * (self.q_max - q))`. -/
def qdMaxBound {n : ℕ} (s : DiffIKSolver n) (q : Fin n → ℚ) : Fin n → ℚ :=
  fun i => min (s.qd_max i) (s.K_doflim * (s.q_max i - q i))

/-- The `qd_min` bound of `DiffIKSolver.compute_velocity`:
`maximum(self.qd_min, self.K_doflim * (self.q_min - q))`. -/
def qdMinBound {n : ℕ} (s : DiffIKSolver n) (q : Fin n → ℚ) : Fin n → ℚ :=
  fun i => max (s.qd_min i) (s.K_doflim * (s.q_min i - q i))

/-- `DiffIKSolver.compute_velocity`: accumulate `(P, r)` over the tasks,
derive the position-aware velocity bounds, stack `G = [+I; -I]` and
`h = [qd_max; -qd_min]`, and return `solve_qp(P, r, G, h)` directly — any
solver failure propagates to the caller unchanged. -/
def compute_velocity {n : ℕ} (ext : ExtSolver) (s : DiffIKSolver n)
    (q qd : Fin n → ℚ) (dt : ℚ) : Except PyExc (List ℚ) :=
  match assemble s q qd dt with
  | none => .error (.keyError "task dict entry missing")
  | some (P, r) =>
    let G := eyeL n ++ negL (eyeL n)
    let h := vecToList (qdMaxBound s q) ++ vecToList (fun i => -(qdMinBound s q i))
    ext (matToList P) (vecToList r) G h

end DiffIKSolver

/-- Object-style task consumed by `VelocitySolver` (ik.py).  The `Task` class
itself is not part of the sources; its capability contract is taken from the
specification: `name`, `weight`, `jacobian()` returning a matrix over all `N`
robot DOFs, `residual(dt)` returning a task-space vector. -/
structure IKTask (N : ℕ) where
  name : String
  weight : ℚ
  jacobian : List (Fin N → ℚ)
  residual : ℚ → List ℚ

/-- Modelled from the spec: `Task.cost(dt)` of the object-style Task
collaborator (class not under src/), the quantity summed by
`VelocitySolver.compute_cost`; per the specification it is
`weight · ‖error(dt)‖²`. -/
def IKTask.cost {N : ℕ} (t : IKTask N) (dt : ℚ) : ℚ :=
  t.weight * sqnorm (t.residual dt)

/-- State of `VelocitySolver` (ik.py).  `N` is the robot's total DOF count
(`robot.nb_dofs`), `n` the active DOF count; `active_dofs i` is the robot
index of active DOF `i`.  `q_max`/`q_min` are the robot bounds sliced to the
active DOFs at construction; `qd` is the full-dimension output velocity
vector; `tasks` is the name-keyed task dict.  The live robot configuration
`robot.q` is passed to the per-cycle functions as an argument. -/
structure VelocitySolver (N n : ℕ) where
  active_dofs : Fin n → Fin N
  doflim_gain : ℚ
  q_max : Fin n → ℚ
  q_min : Fin n → ℚ
  qd : Fin N → ℚ
  qd_max : Fin n → ℚ
  qd_min : Fin n → ℚ
  tasks : List (String × IKTask N)

namespace VelocitySolver

/-- `VelocitySolver.get_task`: the task, when present; on an unknown name a
warning is emitted and `None` is returned (second component: warnings).  The
return type has no exception component: this operation cannot raise. -/
def get_task {N n : ℕ} (s : VelocitySolver N n) (name : String) :
    Option (IKTask N) × List String :=
  match alookup s.tasks name with
  | none => (none, ["no task with name " ++ name])
  | some t => (some t, [])

/-- `VelocitySolver.remove_task`: delete when present; on an unknown name a
warning is emitted and the state is returned unchanged (second component:
warnings).  The return type has no exception component: this operation cannot
raise. -/
def remove_task {N n : ℕ} (s : VelocitySolver N n) (name : String) :
    VelocitySolver N n × List String :=
  if (alookup s.tasks name).isSome then
    ({ s with tasks := aerase s.tasks name }, [])
  else
    (s, ["no task " ++ name ++ " to remove"])

/-- `VelocitySolver.compute_cost`:
`sum(task.cost(dt) for task in self.tasks.itervalues())`. -/
def compute_cost {N n : ℕ} (s : VelocitySolver N n) (dt : ℚ) : ℚ :=
  (s.tasks.map (fun p => p.2.cost dt)).sum

/-- `task.jacobian()[:, self.active_dofs]`: column restriction of a task
Jacobian to the active DOFs. -/
def sliceJ {N n : ℕ} (active_dofs : Fin n → Fin N) (J : List (Fin N → ℚ)) :
    List (Fin n → ℚ) :=
  J.map (fun row => fun j => row (active_dofs j))

/-- `VelocitySolver.__compute_qp_common`: the active configuration is sliced
from the live robot configuration; `(qp_P, qp_q)` accumulate
`weight * dot(J.T, J)` and `weight * dot(-r.T, J)` over the task dict from
`zeros((n, n))` and `zeros(n)`; the velocity bounds combine the constant caps
with the doflim terms `doflim_gain * (q_max - q) / dt` and
`doflim_gain * (q_min - q) / dt`. -/
def compute_qp_common {N n : ℕ} (s : VelocitySolver N n) (robot_q : Fin N → ℚ)
    (dt : ℚ) :
    ((Fin n → Fin n → ℚ) × (Fin n → ℚ)) × ((Fin n → ℚ) × (Fin n → ℚ)) :=
  let q : Fin n → ℚ := fun i => robot_q (s.active_dofs i)
  let Pq : (Fin n → Fin n → ℚ) × (Fin n → ℚ) :=
    s.tasks.foldl
      (fun acc p =>
        let J := sliceJ s.active_dofs p.2.jacobian
        let r := p.2.residual dt
        acc + (p.2.weight • gram J, p.2.weight • negETJ r J))
      (0, 0)
  let qd_max_doflim : Fin n → ℚ := fun i => s.doflim_gain * (s.q_max i - q i) / dt
  let qd_min_doflim : Fin n → ℚ := fun i => s.doflim_gain * (s.q_min i - q i) / dt
  let qd_max : Fin n → ℚ := fun i => min (s.qd_max i) (qd_max_doflim i)
  let qd_min : Fin n → ℚ := fun i => max (s.qd_min i) (qd_min_doflim i)
  (Pq, (qd_max, qd_min))

/-- The exact `ValueError` message pattern-matched by
`VelocitySolver.__solve_qp` (the external solver's diagnosable signal that the
cost matrix is not positive definite — `G` is that solver's name for the cost
matrix). -/
def notPosDefMsg : String :=
  "matrix G is not positive definite"

/-- The `IKError` message raised on rank deficiency. -/
def rankDeficiencyMsg : String :=
  "rank deficiency. Did you add a regularization task?"

/-- Numpy fancy-index assignment `self.qd[self.active_dofs] = qd_active`:
requires the value list to have exactly `n` entries, otherwise a broadcast
`ValueError` is raised; on success active entries are overwritten and all
other entries keep their prior value. -/
def assignActive {N n : ℕ} (qd : Fin N → ℚ) (active_dofs : Fin n → Fin N)
    (xs : List ℚ) : Except PyExc (Fin N → ℚ) :=
  if h : xs.length = n then
    .ok (fun i =>
      match (List.finRange n).reverse.find? (fun k => active_dofs k = i) with
      | some k => xs.get (h ▸ k)
      | none => qd i)
  else
    .error (.valueError ["could not broadcast input array"])

/-- Body of `VelocitySolver.__solve_qp`, given the outcome `res` of the
external `solve_qp` call.  Both the solve and the write-back into `self.qd`
happen inside the `try` block; a caught `ValueError` whose argument is the
not-positive-definite message is translated into the `IKError` carrying the
regularization hint, any other `ValueError` is re-raised as-is, and non-
`ValueError` exceptions are not caught at all.  On success the updated
`self.qd` is stored and returned. -/
def solve_qp_step {N n : ℕ} (s : VelocitySolver N n)
    (res : Except PyExc (List ℚ)) :
    VelocitySolver N n × Except PyExc (Fin N → ℚ) :=
  let attempt : Except PyExc (Fin N → ℚ) :=
    res.bind (fun xs => assignActive s.qd s.active_dofs xs)
  match attempt with
  | .ok qd1 => ({ s with qd := qd1 }, .ok qd1)
  | .error (.valueError args) =>
    if args.contains notPosDefMsg then
      (s, .error (.ikError rankDeficiencyMsg))
    else
      (s, .error (.valueError args))
  | .error e => (s, .error e)

/-- `VelocitySolver.compute_velocity_fast`: assemble the common QP data, stack
`qp_G = [+eye(n); -eye(n)]` and `qp_h = [qd_max; -qd_min]`, and run the solve
step. -/
def compute_velocity_fast {N n : ℕ} (ext : ExtSolver) (s : VelocitySolver N n)
    (robot_q : Fin N → ℚ) (dt : ℚ) :
    VelocitySolver N n × Except PyExc (Fin N → ℚ) :=
  let common := compute_qp_common s robot_q dt
  let qp_P := common.1.1
  let qp_q := common.1.2
  let qd_max := common.2.1
  let qd_min := common.2.2
  let qp_G := eyeL n ++ negL (eyeL n)
  let qp_h := vecToList qd_max ++ vecToList (fun i => -(qd_min i))
  solve_qp_step s (ext (matToList qp_P) (vecToList qp_q) qp_G qp_h)

/-- `VelocitySolver.compute_velocity_safe`: the 2n-variable margin-relaxed QP
`qp_P = bmat [[P0, Z], [Z, margin_reg * E]]`,
`qp_q = hstack [q0, -margin_lin * ones(n)]`,
`qp_G = bmat [[+E, +E/dt], [-E, +E/dt], [Z, -E]]`,
`qp_h = hstack [qd_max, -qd_min, zeros(n)]`, then the same solve step. -/
def compute_velocity_safe {N n : ℕ} (ext : ExtSolver) (s : VelocitySolver N n)
    (robot_q : Fin N → ℚ) (dt : ℚ) (margin_reg margin_lin : ℚ) :
    VelocitySolver N n × Except PyExc (Fin N → ℚ) :=
  let common := compute_qp_common s robot_q dt
  let qp_P0 := common.1.1
  let qp_q0 := common.1.2
  let qd_max := common.2.1
  let qd_min := common.2.2
  let E := eyeL n
  let Z := zerosL n n
  let Edt := smulL (1 / dt) (eyeL n)
  let qp_P := hcatL (matToList qp_P0) Z ++ hcatL Z (smulL margin_reg E)
  let qp_q := vecToList qp_q0 ++ (List.range n).map (fun _ => -margin_lin)
  let qp_G := hcatL E Edt ++ hcatL (negL E) Edt ++ hcatL Z (negL E)
  let qp_h := vecToList qd_max ++ vecToList (fun i => -(qd_min i)) ++
    (List.range n).map (fun _ => (0 : ℚ))
  solve_qp_step s (ext qp_P qp_q qp_G qp_h)

/-- Default value of `margin_reg` in `compute_velocity_safe` (`1e-5`). -/
def margin_reg_default : ℚ :=
  1 / 100000

/-- Default value of `margin_lin` in `compute_velocity_safe` (`1e-3`). -/
def margin_lin_default : ℚ :=
  1 / 1000

/-- `VelocitySolver.compute_velocity(dt, method)`: `'fast'` dispatches to the
fast strategy; any other method value falls through to the safe strategy with
its default margins. -/
def compute_velocity {N n : ℕ} (ext : ExtSolver) (s : VelocitySolver N n)
    (robot_q : Fin N → ℚ) (dt : ℚ) (method : String) :
    VelocitySolver N n × Except PyExc (Fin N → ℚ) :=
  if method = "fast" then
    compute_velocity_fast ext s robot_q dt
  else
    compute_velocity_safe ext s robot_q dt margin_reg_default margin_lin_default

/-- A call to `compute_velocity` at the Python call boundary: `method` is a
required positional parameter with no default, so a call that omits it raises
`TypeError` before the body runs. -/
def compute_velocity_call {N n : ℕ} (ext : ExtSolver) (s : VelocitySolver N n)
    (robot_q : Fin N → ℚ) (dt : ℚ) (method : Option String) :
    VelocitySolver N n × Except PyExc (Fin N → ℚ) :=
  match method with
  | none => (s, .error (.typeError "compute_velocity takes exactly 3 arguments (2 given)"))
  | some m => compute_velocity ext s robot_q dt m

end VelocitySolver

/-- Formula of spec section 4.3, written from the specification words for
comparison with the code: `qd_max = min(constant_qd_max, K * (q_max - q) / dt)`. -/
def specQdMax {n : ℕ} (constant_qd_max : Fin n → ℚ) (K : ℚ)
    (q_max q : Fin n → ℚ) (dt : ℚ) : Fin n → ℚ :=
  fun i => min (constant_qd_max i) (K * (q_max i - q i) / dt)

/-- Formula of spec section 4.3, written from the specification words for
comparison with the code: `qd_min = max(constant_qd_min, K * (q_min - q) / dt)`. -/
def specQdMin {n : ℕ} (constant_qd_min : Fin n → ℚ) (K : ℚ)
    (q_min q : Fin n → ℚ) (dt : ℚ) : Fin n → ℚ :=
  fun i => max (constant_qd_min i) (K * (q_min i - q i) / dt)

/-- The ordered fallback chain of spec section 4.2, written from the
specification words: explicit value, else per-name default, else per-task_type
default. -/
def specResolve (explicit : Option ℚ) (name : String)
    (task_type : Option String) (defaults : List (String × ℚ)) : Option ℚ :=
  match explicit with
  | some v => some v
  | none =>
    match alookup defaults name with
    | some v => some v
    | none => task_type.bind (alookup defaults)

/-- A registry operation on a `DiffIKSolver`: an `add_task` call with its full
argument vector, or a `remove_task` call. -/
inductive RegOp (n : ℕ) where
  | add (name : String) (error : ErrFn n) (jacobian : JacFn n)
      (gain weight : Option ℚ) (task_type : Option String) (unit_gain : Bool)
  | remove (name : String)

/-- One registry operation applied to a solver state: the post-call state and
the exception it raised, if any (`remove_task` never raises). -/
def applyOp {n : ℕ} (s : DiffIKSolver n) : RegOp n → DiffIKSolver n × Option PyExc
  | .add name e j g w tt ug => DiffIKSolver.add_task s name e j g w tt ug
  | .remove name => ((DiffIKSolver.remove_task s name).1, none)

/-- A sequence of registry operations applied in order; the Boolean records
whether every operation in the sequence completed without raising. -/
def runOps {n : ℕ} (s : DiffIKSolver n) (ops : List (RegOp n)) :
    DiffIKSolver n × Bool :=
  ops.foldl
    (fun acc op =>
      let r := applyOp acc.1 op
      (r.1, acc.2 && r.2.isNone))
    (s, true)

/-- The gain/weight registry invariant actually maintained by the code for
states reached through successful operations: every registered task either
has no gain entry (unit-gain tasks) or a gain below the `1 + 1e-10`
tolerance, and has a strictly positive weight entry. -/
def GainWeightInv {n : ℕ} (s : DiffIKSolver n) : Prop :=
  ∀ name ∈ s.tasks,
    (∀ g, alookup s.gains name = some g → g < DiffIKSolver.onePlusEps) ∧
    (∃ w, alookup s.weights name = some w ∧ 0 < w)

/-- Trivial error function used in concrete instances. -/
def sampleErr0 : ErrFn 1 := fun _ _ _ => []

/-- Trivial Jacobian function used in concrete instances. -/
def sampleJac0 : JacFn 1 := fun _ => []

/-- One-dimensional error function with constant error `[3]`. -/
def sampleErr3 : ErrFn 1 := fun _ _ _ => [3]

/-- One-dimensional Jacobian function with constant row `[2]`. -/
def sampleJac2 : JacFn 1 := fun _ => [fun _ => 2]

/-- A one-DOF `DiffIKSolver` with a single registered task named `t` of
weight 2 and gain 1/2. -/
def sampleDiff : DiffIKSolver 1 :=
  { K_doflim := 1
    default_gains := []
    default_weights := []
    errors := [("t", sampleErr3)]
    gains := [("t", 1/2)]
    jacobians := [("t", sampleJac2)]
    q_max := fun _ => 10
    q_min := fun _ => -10
    qd_max := fun _ => 1
    qd_min := fun _ => -1
    tasks := ["t"]
    weights := [("t", 2)] }

/-- A fresh one-DOF `DiffIKSolver` with an empty registry. -/
def sampleEmptyDiff : DiffIKSolver 1 :=
  DiffIKSolver.init 1 (fun _ => 10) (fun _ => -10) 1 1 [] []

/-- A one-DOF `DiffIKSolver` whose upper position bound is 2 away from the
configuration used against it. -/
def sampleDiffBounds : DiffIKSolver 1 :=
  DiffIKSolver.init 1 (fun _ => 2) (fun _ => -2) 10 1 [] []

/-- A concrete object-style task: weight 2, Jacobian row `[2]`,
residual `[3]`. -/
def sampleIKTask : IKTask 1 :=
  { name := "t", weight := 2, jacobian := [fun _ => 2], residual := fun _ => [3] }

/-- A one-robot-DOF, one-active-DOF `VelocitySolver` holding the sample
task. -/
def sampleVS : VelocitySolver 1 1 :=
  { active_dofs := fun i => i
    doflim_gain := 1
    q_max := fun _ => 10
    q_min := fun _ => -10
    qd := fun _ => 0
    qd_max := fun _ => 1
    qd_min := fun _ => -1
    tasks := [("t", sampleIKTask)] }

/-- The sample `VelocitySolver` with an empty task dict. -/
def sampleVSEmpty : VelocitySolver 1 1 :=
  { sampleVS with tasks := [] }

/-- External solver stub failing with the not-positive-definite
`ValueError`. -/
def extFailNotPosDef : ExtSolver :=
  fun _ _ _ _ => .error (.valueError [VelocitySolver.notPosDefMsg])

/-- External solver stub returning an empty solution vector (wrong length for
any positive number of active DOFs, so the write-back raises the broadcast
`ValueError`). -/
def extEmptyOk : ExtSolver :=
  fun _ _ _ _ => .ok []

/-- A one-DOF `DiffIKSolver` whose default gain/weight tables carry entries
for the task type `posture`. -/
def sampleC5 : DiffIKSolver 1 :=
  DiffIKSolver.init 1 (fun _ => 10) (fun _ => -10) 1 1
    [("posture", 1/2)] [("posture", 3)]

/-- The target term of the cost assembly as the specification states it:
`e = error(q, qd, dt)` for unit-gain tasks (no gain entry), else
`e = gain * (error(q, qd, dt) / dt)`. -/
def targetE (gopt : Option ℚ) (ev : List ℚ) (dt : ℚ) : List ℚ :=
  match gopt with
  | some g => ev.map (fun x => g * (x / dt))
  | none => ev

/-!
Helper lemmas about the association-list and fold primitives.
-/

theorem alookup_aerase_self {β : Type} (l : List (String × β)) (k : String) :
    alookup (aerase l k) k = none := by
  induction l with
  | nil => rfl
  | cons p ps ih =>
    by_cases h : p.1 = k <;> simp [aerase, alookup, h, ih]

theorem alookup_aerase_ne {β : Type} (l : List (String × β)) (k k' : String)
    (h : k' ≠ k) : alookup (aerase l k) k' = alookup l k' := by
  have hkk : ¬ k = k' := fun hh => h hh.symm
  induction l with
  | nil => rfl
  | cons p ps ih =>
    by_cases hp : p.1 = k
    · have hp' : ¬ p.1 = k' := by rw [hp]; exact hkk
      simp [aerase, alookup, hp, hp', hkk, ih]
    · by_cases hp' : p.1 = k' <;> simp [aerase, alookup, hp, hp', h, ih]

theorem alookup_ainsert_self {β : Type} (l : List (String × β)) (k : String)
    (v : β) : alookup (ainsert l k v) k = some v := by
  simp [ainsert, alookup]

theorem alookup_ainsert_ne {β : Type} (l : List (String × β)) (k k' : String)
    (v : β) (h : k' ≠ k) : alookup (ainsert l k v) k' = alookup l k' := by
  have hk : ¬ k = k' := fun hh => h hh.symm
  simp [ainsert, alookup, hk, alookup_aerase_ne l k k' h]

theorem mem_of_mem_serase (l : List String) (k a : String) :
    a ∈ serase l k → a ∈ l := by
  induction l with
  | nil => simp [serase]
  | cons s ss ih =>
    by_cases h : s = k
    · simp [serase, h]
      intro ha
      exact Or.inr (ih ha)
    · simp only [serase, h, if_false, List.mem_cons]
      rintro (rfl | ha)
      · exact Or.inl rfl
      · exact Or.inr (ih ha)

theorem not_mem_serase_self (l : List String) (k : String) :
    k ∉ serase l k := by
  induction l with
  | nil => simp [serase]
  | cons s ss ih =>
    by_cases h : s = k <;> simp [serase, h, ih]
    exact fun hh => h hh.symm

/-- A monadic left fold over `Option` that adds one term per element equals
the sum of those terms, offset by the initial accumulator. -/
theorem foldlM_option_add_sum {α M : Type} [AddCommMonoid M]
    (f : α → Option M) (g : α → M) :
    ∀ (l : List α), (∀ t ∈ l, f t = some (g t)) → ∀ (init : M),
      l.foldlM (fun acc t => (f t).map (acc + ·)) init =
        some (init + (l.map g).sum) := by
  intro l
  induction l with
  | nil => intro _ init; simp
  | cons a l ih =>
    intro h init
    have ha : f a = some (g a) := h a (List.mem_cons_self a l)
    have hl : ∀ t ∈ l, f t = some (g t) :=
      fun t ht => h t (List.mem_cons_of_mem a ht)
    rw [List.foldlM_cons, ha]
    simp only [Option.map_some']
    rw [Option.bind_eq_bind, Option.some_bind]
    rw [ih hl (init + g a)]
    simp [add_assoc]

/-- A left fold adding one term per element equals the sum of those terms,
offset by the initial accumulator. -/
theorem foldl_add_sum {α M : Type} [AddCommMonoid M] (g : α → M) :
    ∀ (l : List α) (init : M),
      l.foldl (fun acc t => acc + g t) init = init + (l.map g).sum := by
  intro l
  induction l with
  | nil => intro init; simp
  | cons a l ih =>
    intro init
    simp only [List.foldl_cons, List.map_cons, List.sum_cons]
    rw [ih, add_assoc]

/-- Summing pairs componentwise. -/
theorem map_sum_prod {α M₁ M₂ : Type} [AddCommMonoid M₁] [AddCommMonoid M₂]
    (f : α → M₁) (g : α → M₂) :
    ∀ l : List α,
      (l.map (fun t => (f t, g t))).sum = ((l.map f).sum, (l.map g).sum) := by
  intro l
  induction l with
  | nil => simp
  | cons a l ih => simp [ih, Prod.ext_iff]

/-- Under `unit_gain` the gain block only deletes any stale gain entry. -/
theorem gainStep_unit {n : ℕ} (s1 : DiffIKSolver n) (name : String)
    (gain : Option ℚ) (tt : Option String) :
    DiffIKSolver.gainStep s1 name gain tt true =
      ({ s1 with gains := aerase s1.gains name }, none) := rfl

/-- Without `unit_gain` the gain block is exactly the ordered fallback chain
of the specification. -/
theorem gainStep_nonunit {n : ℕ} (s1 : DiffIKSolver n) (name : String)
    (gain : Option ℚ) (tt : Option String) :
    DiffIKSolver.gainStep s1 name gain tt false =
      match specResolve gain name tt s1.default_gains with
      | some g => ({ s1 with gains := ainsert s1.gains name g }, none)
      | none => (s1, some (.missingGain (DiffIKSolver.noGainMsg name tt))) := by
  cases gain with
  | some g => rfl
  | none =>
    simp only [DiffIKSolver.gainStep, specResolve]
    cases alookup s1.default_gains name with
    | some g => rfl
    | none => rfl

/-- The weight block is exactly the ordered fallback chain of the
specification. -/
theorem weightStep_eq {n : ℕ} (s2 : DiffIKSolver n) (name : String)
    (weight : Option ℚ) (tt : Option String) :
    DiffIKSolver.weightStep s2 name weight tt =
      match specResolve weight name tt s2.default_weights with
      | some w => ({ s2 with weights := ainsert s2.weights name w }, none)
      | none => (s2, some (.missingWeight (DiffIKSolver.noWeightMsg name tt))) := by
  cases weight with
  | some w => rfl
  | none =>
    simp only [DiffIKSolver.weightStep, specResolve]
    cases alookup s2.default_weights name with
    | some w => rfl
    | none => rfl

/-- The gain block touches only the `gains` dict. -/
theorem gainStep_frame {n : ℕ} (s1 : DiffIKSolver n) (name : String)
    (gain : Option ℚ) (tt : Option String) (ug : Bool) :
    ∃ gs, (DiffIKSolver.gainStep s1 name gain tt ug).1 = { s1 with gains := gs } := by
  cases ug
  · rw [gainStep_nonunit]
    cases specResolve gain name tt s1.default_gains with
    | some g => exact ⟨ainsert s1.gains name g, rfl⟩
    | none => exact ⟨s1.gains, rfl⟩
  · exact ⟨aerase s1.gains name, rfl⟩

/-- The weight block touches only the `weights` dict. -/
theorem weightStep_frame {n : ℕ} (s2 : DiffIKSolver n) (name : String)
    (weight : Option ℚ) (tt : Option String) :
    ∃ ws, (DiffIKSolver.weightStep s2 name weight tt).1 = { s2 with weights := ws } := by
  rw [weightStep_eq]
  cases specResolve weight name tt s2.default_weights with
  | some w => exact ⟨ainsert s2.weights name w, rfl⟩
  | none => exact ⟨s2.weights, rfl⟩

/-- Postconditions of a successful `add_task` call: the name was fresh and is
appended to the task set, other names keep their gain/weight entries, and the
new task's gain entry (when present) is below the tolerance while its weight
entry is positive. -/
theorem add_task_success {n : ℕ} {s s' : DiffIKSolver n} {name : String}
    {e : ErrFn n} {j : JacFn n} {gain weight : Option ℚ} {tt : Option String}
    {ug : Bool}
    (h : DiffIKSolver.add_task s name e j gain weight tt ug = (s', none)) :
    name ∉ s.tasks ∧
    s'.tasks = s.tasks ++ [name] ∧
    (∀ k, k ≠ name → alookup s'.gains k = alookup s.gains k) ∧
    (∀ k, k ≠ name → alookup s'.weights k = alookup s.weights k) ∧
    (∀ g, alookup s'.gains name = some g → g < DiffIKSolver.onePlusEps) ∧
    (∃ w, alookup s'.weights name = some w ∧ 0 < w) := by
  simp only [DiffIKSolver.add_task] at h
  split at h
  next hf => exact absurd (congrArg Prod.snd h) (by simp)
  next hf =>
    split at h
    next s2 er heq => exact absurd (congrArg Prod.snd h) (by simp)
    next s2 heq =>
      split at h
      next s3 er heq2 => exact absurd (congrArg Prod.snd h) (by simp)
      next s3 heq2 =>
        split at h
        next hA => exact absurd (congrArg Prod.snd h) (by simp)
        next hA =>
          split at h
          next hB => exact absurd (congrArg Prod.snd h) (by simp)
          next hB =>
            have hs' : s' = s3 := (congrArg Prod.fst h).symm
            -- decompose the weight stage
            rw [weightStep_eq] at heq2
            rcases hrw : specResolve weight name tt s2.default_weights with _ | w0
            · rw [hrw] at heq2
              exact absurd (congrArg Prod.snd heq2) (by simp)
            rw [hrw] at heq2
            have h3w : s3.weights = ainsert s2.weights name w0 :=
              (congrArg (fun p => Prod.fst p |>.weights) heq2).symm
            have h3g : s3.gains = s2.gains :=
              (congrArg (fun p => Prod.fst p |>.gains) heq2).symm
            have h3t : s3.tasks = s2.tasks :=
              (congrArg (fun p => Prod.fst p |>.tasks) heq2).symm
            have hw0pos : 0 < w0 := by
              rw [not_not] at hB
              rw [h3w] at hB
              simp only [alookup_ainsert_self, Option.getD_some] at hB
              exact hB
            have hwself : alookup s'.weights name = some w0 := by
              rw [hs', h3w]
              exact alookup_ainsert_self _ _ _
            -- decompose the gain stage, by unit_gain case
            cases ug with
            | true =>
              rw [gainStep_unit] at heq
              have h2g : s2.gains = aerase s.gains name :=
                (congrArg (fun p => Prod.fst p |>.gains) heq).symm
              have h2w : s2.weights = s.weights :=
                (congrArg (fun p => Prod.fst p |>.weights) heq).symm
              have h2t : s2.tasks = s.tasks ++ [name] :=
                (congrArg (fun p => Prod.fst p |>.tasks) heq).symm
              refine ⟨hf, ?_, ?_, ?_, ?_, ⟨w0, hwself, hw0pos⟩⟩
              · rw [hs', h3t, h2t]
              · intro k hk
                rw [hs', h3g, h2g]
                exact alookup_aerase_ne _ _ _ hk
              · intro k hk
                rw [hs', h3w, h2w]
                exact alookup_ainsert_ne _ _ _ _ hk
              · intro g hgx
                rw [hs', h3g, h2g, alookup_aerase_self] at hgx
                exact absurd hgx (by simp)
            | false =>
              rw [gainStep_nonunit] at heq
              dsimp only at heq
              rcases hrg : specResolve gain name tt s.default_gains with _ | g0
              · rw [hrg] at heq
                exact absurd (congrArg Prod.snd heq) (by simp)
              rw [hrg] at heq
              have h2g : s2.gains = ainsert s.gains name g0 :=
                (congrArg (fun p => Prod.fst p |>.gains) heq).symm
              have h2w : s2.weights = s.weights :=
                (congrArg (fun p => Prod.fst p |>.weights) heq).symm
              have h2t : s2.tasks = s.tasks ++ [name] :=
                (congrArg (fun p => Prod.fst p |>.tasks) heq).symm
              have hg0 : g0 < DiffIKSolver.onePlusEps := by
                have hA2 : (alookup s3.gains name).getD 0 < DiffIKSolver.onePlusEps := by
                  simpa using hA
                rw [h3g, h2g] at hA2
                simp only [alookup_ainsert_self, Option.getD_some] at hA2
                exact hA2
              refine ⟨hf, ?_, ?_, ?_, ?_, ⟨w0, hwself, hw0pos⟩⟩
              · rw [hs', h3t, h2t]
              · intro k hk
                rw [hs', h3g, h2g]
                exact alookup_ainsert_ne _ _ _ _ hk
              · intro k hk
                rw [hs', h3w, h2w]
                exact alookup_ainsert_ne _ _ _ _ hk
              · intro g hgx
                rw [hs', h3g, h2g, alookup_ainsert_self] at hgx
                exact Option.some_inj.mp hgx ▸ hg0

/-- A successful `add_task` call preserves the gain/weight invariant. -/
theorem add_task_preserves_inv {n : ℕ} {s s' : DiffIKSolver n} {name : String}
    {e : ErrFn n} {j : JacFn n} {gain weight : Option ℚ} {tt : Option String}
    {ug : Bool}
    (h : DiffIKSolver.add_task s name e j gain weight tt ug = (s', none))
    (hs : GainWeightInv s) : GainWeightInv s' := by
  obtain ⟨hf, ht, hgk, hwk, hgn, hwn⟩ := add_task_success h
  intro k hk
  rw [ht] at hk
  rcases List.mem_append.mp hk with hk1 | hk2
  · have hkne : k ≠ name := by
      intro hkeq; rw [hkeq] at hk1; exact hf hk1
    obtain ⟨h1, w, h2, h3⟩ := hs k hk1
    refine ⟨?_, w, ?_, h3⟩
    · intro g hg
      exact h1 g ((hgk k hkne) ▸ hg)
    · rw [hwk k hkne]; exact h2
  · have hkeq : k = name := by simpa using hk2
    subst hkeq
    exact ⟨hgn, hwn⟩

/-- `remove_task` preserves the gain/weight invariant. -/
theorem remove_task_preserves_inv {n : ℕ} (s : DiffIKSolver n) (name : String)
    (hs : GainWeightInv s) :
    GainWeightInv (DiffIKSolver.remove_task s name).1 := by
  unfold DiffIKSolver.remove_task
  by_cases hm : name ∈ s.tasks
  · rw [if_pos hm]
    intro k hk
    exact hs k (mem_of_mem_serase _ _ _ hk)
  · rw [if_neg hm]
    exact hs

/-- Any single successful registry operation preserves the invariant. -/
theorem applyOp_preserves_inv {n : ℕ} {s s' : DiffIKSolver n} {op : RegOp n}
    (h : applyOp s op = (s', none)) (hs : GainWeightInv s) :
    GainWeightInv s' := by
  cases op with
  | add name e j g w tt ug => exact add_task_preserves_inv h hs
  | remove name =>
    have hh : (DiffIKSolver.remove_task s name).1 = s' := congrArg Prod.fst h
    rw [← hh]
    exact remove_task_preserves_inv s name hs

/-- Once an operation in the sequence has raised, the success flag stays
`false`. -/
theorem runOps_flag_false {n : ℕ} (ops : List (RegOp n)) :
    ∀ s : DiffIKSolver n,
      (ops.foldl
        (fun acc op =>
          let r := applyOp acc.1 op
          (r.1, acc.2 && r.2.isNone))
        (s, false)).2 = false := by
  induction ops with
  | nil => intro s; rfl
  | cons op ops ih =>
    intro s
    simp only [List.foldl_cons, Bool.false_and]
    exact ih _

/-- The fold underlying `runOps` preserves the invariant whenever the final
success flag is `true`. -/
theorem runOps_fold_inv {n : ℕ} (ops : List (RegOp n)) :
    ∀ (s : DiffIKSolver n) (b : Bool), GainWeightInv s →
      (ops.foldl
        (fun acc op =>
          let r := applyOp acc.1 op
          (r.1, acc.2 && r.2.isNone))
        (s, b)).2 = true →
      GainWeightInv
        (ops.foldl
          (fun acc op =>
            let r := applyOp acc.1 op
            (r.1, acc.2 && r.2.isNone))
          (s, b)).1 := by
  induction ops with
  | nil => intro s b hs _; exact hs
  | cons op ops ih =>
    intro s b hs hflag
    simp only [List.foldl_cons] at hflag ⊢
    rcases hop : applyOp s op with ⟨s1, e1⟩
    simp only [hop] at hflag ⊢
    cases e1 with
    | some er =>
      exfalso
      simp only [Option.isNone_some, Bool.and_false] at hflag
      rw [runOps_flag_false ops s1] at hflag
      exact Bool.false_ne_true hflag
    | none =>
      simp only [Option.isNone_none, Bool.and_true] at hflag ⊢
      exact ih s1 b (applyOp_preserves_inv hop hs) hflag

/-- The entries `add_task` writes for the new name and the errors of its two
resolution stages, expressed through the ordered fallback chain
`specResolve`.  Holds whatever the call's final outcome `er` is. -/
theorem add_task_entries {n : ℕ} {s s' : DiffIKSolver n} {name : String}
    {e : ErrFn n} {j : JacFn n} {gain weight : Option ℚ} {tt : Option String}
    {ug : Bool} {er : Option PyExc}
    (h : DiffIKSolver.add_task s name e j gain weight tt ug = (s', er))
    (hf : name ∉ s.tasks) :
    (ug = false → ∀ gv, specResolve gain name tt s.default_gains = some gv →
       alookup s'.gains name = some gv) ∧
    (ug = false → specResolve gain name tt s.default_gains = none →
       er = some (.missingGain (DiffIKSolver.noGainMsg name tt))) ∧
    ((ug = true ∨ (specResolve gain name tt s.default_gains).isSome = true) →
       (∀ wv, specResolve weight name tt s.default_weights = some wv →
          alookup s'.weights name = some wv) ∧
       (specResolve weight name tt s.default_weights = none →
          er = some (.missingWeight (DiffIKSolver.noWeightMsg name tt)))) := by
  simp only [DiffIKSolver.add_task, if_neg hf] at h
  split at h
  next s2 er0 heq =>
    -- the gain stage raised
    have her : er = some er0 := (congrArg Prod.snd h).symm
    cases ug with
    | true =>
      rw [gainStep_unit] at heq
      exact absurd (congrArg Prod.snd heq) (by simp)
    | false =>
      rw [gainStep_nonunit] at heq
      dsimp only at heq
      rcases hrg : specResolve gain name tt s.default_gains with _ | g0
      · rw [hrg] at heq
        have her0 : er0 = .missingGain (DiffIKSolver.noGainMsg name tt) := by
          have h2 := congrArg Prod.snd heq
          simpa using h2.symm
        refine ⟨?_, ?_, ?_⟩
        · intro _ gv hgv
          exact absurd hgv (by simp)
        · intro _ _
          rw [her, her0]
        · intro hc
          rcases hc with hc | hc
          · exact absurd hc (by simp)
          · exact absurd hc (by simp)
      · rw [hrg] at heq
        exact absurd (congrArg Prod.snd heq) (by simp)
  next s2 heq =>
    -- the gain stage succeeded; relate `s2` to `s`
    obtain ⟨gs, hgs⟩ := gainStep_frame
      { s with
        tasks := s.tasks ++ [name]
        errors := ainsert s.errors name e
        jacobians := ainsert s.jacobians name j } name gain tt ug
    rw [heq] at hgs
    have hs2lit : s2 =
        { s with
          tasks := s.tasks ++ [name]
          errors := ainsert s.errors name e
          jacobians := ainsert s.jacobians name j
          gains := gs } := hgs
    have hdw : s2.default_weights = s.default_weights := by
      rw [hs2lit]
    have hA : ug = false → ∀ gv,
        specResolve gain name tt s.default_gains = some gv →
        s2.gains = ainsert s.gains name gv := by
      intro hugf gv hgv
      rw [hugf, gainStep_nonunit] at heq
      dsimp only at heq
      rw [hgv] at heq
      exact (congrArg (fun p => Prod.fst p |>.gains) heq).symm
    have hB : ug = false → specResolve gain name tt s.default_gains = none →
        False := by
      intro hugf hnone
      rw [hugf, gainStep_nonunit] at heq
      dsimp only at heq
      rw [hnone] at heq
      exact absurd (congrArg Prod.snd heq) (by simp)
    -- the weight stage and the assertions
    split at h
    next s3 er1 heq2 =>
      have her : er = some er1 := (congrArg Prod.snd h).symm
      have hs' : s' = s3 := (congrArg Prod.fst h).symm
      rw [weightStep_eq] at heq2
      rcases hrw : specResolve weight name tt s2.default_weights with _ | w0
      · rw [hrw] at heq2
        have hs3 : s3 = s2 := (congrArg Prod.fst heq2).symm
        have her1 : er1 = .missingWeight (DiffIKSolver.noWeightMsg name tt) := by
          have h2 := congrArg Prod.snd heq2
          simpa using h2.symm
        refine ⟨?_, ?_, ?_⟩
        · intro hugf gv hgv
          rw [hs', hs3, hA hugf gv hgv]
          exact alookup_ainsert_self _ _ _
        · intro hugf hnone
          exact absurd (hB hugf hnone) id
        · intro _
          constructor
          · intro wv hwv
            rw [← hdw] at hwv
            rw [hrw] at hwv
            exact absurd hwv (by simp)
          · intro _
            rw [her, her1]
      · rw [hrw] at heq2
        exact absurd (congrArg Prod.snd heq2) (by simp)
    next s3 heq2 =>
      have hs' : s' = s3 := by
        split at h
        · exact (congrArg Prod.fst h).symm
        · split at h <;> exact (congrArg Prod.fst h).symm
      rw [weightStep_eq] at heq2
      rcases hrw : specResolve weight name tt s2.default_weights with _ | w0
      · rw [hrw] at heq2
        exact absurd (congrArg Prod.snd heq2) (by simp)
      · rw [hrw] at heq2
        have hs3 : s3 = { s2 with weights := ainsert s2.weights name w0 } :=
          (congrArg Prod.fst heq2).symm
        refine ⟨?_, ?_, ?_⟩
        · intro hugf gv hgv
          rw [hs', hs3]
          have hg2 : s2.gains = ainsert s.gains name gv := hA hugf gv hgv
          calc alookup ({ s2 with weights := ainsert s2.weights name w0 } :
                  DiffIKSolver n).gains name
              = alookup s2.gains name := rfl
            _ = some gv := by rw [hg2]; exact alookup_ainsert_self _ _ _
        · intro hugf hnone
          exact absurd (hB hugf hnone) id
        · intro _
          constructor
          · intro wv hwv
            rw [← hdw] at hwv
            rw [hrw] at hwv
            have hwv0 : wv = w0 := (Option.some_inj.mp hwv).symm
            rw [hs', hs3, hwv0]
            exact alookup_ainsert_self _ _ _
          · intro hnone
            rw [← hdw] at hnone
            rw [hrw] at hnone
            exact absurd hnone (by simp)

/-- Evaluation of `taskTerm` when every dict entry for the task is present. -/
theorem taskTerm_eval {n : ℕ} (s : DiffIKSolver n) (q qd : Fin n → ℚ) (dt : ℚ)
    (t : String) (jf : JacFn n) (ef : ErrFn n) (w : ℚ) (gopt : Option ℚ)
    (hj : alookup s.jacobians t = some jf)
    (he : alookup s.errors t = some ef)
    (hw : alookup s.weights t = some w)
    (hg : alookup s.gains t = gopt) :
    DiffIKSolver.taskTerm s q qd dt t =
      some (w • gram (jf q), w • negETJ (targetE gopt (ef q qd dt) dt) (jf q)) := by
  simp only [DiffIKSolver.taskTerm, hj, hg, he, hw]
  cases gopt <;> simp [targetE]

/-- C1: per registered task the assembly takes the Jacobian (restricted to
the active DOFs in the `VelocitySolver`), the target term `e` — the raw error
for unit-gain tasks (no gain entry), `gain * (error / dt)` otherwise — and
accumulates `P = Σ weight · Jᵀ J` and `q = Σ weight · (−eᵀ J)` starting from
zero. -/
theorem claim1_qp_cost_assembly
    (n : ℕ) (s : DiffIKSolver n) (q qd : Fin n → ℚ) (dt : ℚ)
    (jf : String → JacFn n) (ef : String → ErrFn n) (wf : String → ℚ)
    (gf : String → Option ℚ)
    (hj : ∀ t ∈ s.tasks, alookup s.jacobians t = some (jf t))
    (he : ∀ t ∈ s.tasks, alookup s.errors t = some (ef t))
    (hw : ∀ t ∈ s.tasks, alookup s.weights t = some (wf t))
    (hg : ∀ t ∈ s.tasks, alookup s.gains t = gf t)
    (N n2 : ℕ) (sv : VelocitySolver N n2) (rq : Fin N → ℚ) (dt2 : ℚ) :
    DiffIKSolver.assemble s q qd dt =
      some ((s.tasks.map (fun t => wf t • gram (jf t q))).sum,
            (s.tasks.map (fun t =>
              wf t • negETJ (targetE (gf t) (ef t q qd dt) dt) (jf t q))).sum) ∧
    (VelocitySolver.compute_qp_common sv rq dt2).1 =
      ((sv.tasks.map (fun p =>
          p.2.weight • gram (VelocitySolver.sliceJ sv.active_dofs p.2.jacobian))).sum,
       (sv.tasks.map (fun p =>
          p.2.weight • negETJ (p.2.residual dt2)
            (VelocitySolver.sliceJ sv.active_dofs p.2.jacobian))).sum) := by
  constructor
  · have hterm : ∀ t ∈ s.tasks, DiffIKSolver.taskTerm s q qd dt t =
        some (wf t • gram (jf t q),
              wf t • negETJ (targetE (gf t) (ef t q qd dt) dt) (jf t q)) :=
      fun t ht => taskTerm_eval s q qd dt t (jf t) (ef t) (wf t) (gf t)
        (hj t ht) (he t ht) (hw t ht) (hg t ht)
    calc DiffIKSolver.assemble s q qd dt
        = some ((0, 0) + (s.tasks.map (fun t =>
            (wf t • gram (jf t q),
             wf t • negETJ (targetE (gf t) (ef t q qd dt) dt) (jf t q)))).sum) :=
          foldlM_option_add_sum _ _ s.tasks hterm (0, 0)
      _ = _ := by rw [map_sum_prod]; simp
  · unfold VelocitySolver.compute_qp_common
    dsimp only
    rw [foldl_add_sum, map_sum_prod]
    simp

/-- Witness for C1: on the one-task sample solvers the assembled cost data
evaluates to the expected concrete matrices. -/
theorem claim1_witness :
    DiffIKSolver.assemble sampleDiff (fun _ => 0) (fun _ => 0) 1 =
      some (fun _ _ => 8, fun _ => -6) ∧
    (VelocitySolver.compute_qp_common sampleVS (fun _ => 0) 1).1 =
      (fun _ _ => 8, fun _ => -12) := by
  have h := claim1_qp_cost_assembly 1 sampleDiff (fun _ => 0) (fun _ => 0) 1
    (fun _ => sampleJac2) (fun _ => sampleErr3) (fun _ => 2)
    (fun _ => some (1/2))
    (by intro t ht; have ht2 := List.mem_singleton.mp ht; subst ht2; rfl)
    (by intro t ht; have ht2 := List.mem_singleton.mp ht; subst ht2; rfl)
    (by intro t ht; have ht2 := List.mem_singleton.mp ht; subst ht2; rfl)
    (by intro t ht; have ht2 := List.mem_singleton.mp ht; subst ht2; rfl)
    1 1 sampleVS (fun _ => 0) 1
  constructor
  · rw [h.1]
    refine congrArg some (Prod.ext ?_ ?_)
    · funext i k
      simp [sampleDiff, gram, sampleJac2, Pi.smul_apply, smul_eq_mul]
      norm_num
    · funext k
      simp [sampleDiff, negETJ, targetE, sampleErr3, sampleJac2, Pi.smul_apply,
        smul_eq_mul]
      norm_num
  · rw [h.2]
    refine Prod.ext ?_ ?_
    · funext i k
      simp [sampleVS, sampleIKTask, gram, VelocitySolver.sliceJ, Pi.smul_apply,
        smul_eq_mul]
      norm_num
    · funext k
      simp [sampleVS, sampleIKTask, negETJ, VelocitySolver.sliceJ,
        Pi.smul_apply, smul_eq_mul]
      norm_num

/-- C6: `compute_cost` is exactly the weighted sum of squared task errors, in
both solvers, with no QP solve involved (neither function consults the
external solver). -/
theorem claim6_compute_cost
    (n : ℕ) (s : DiffIKSolver n) (q qd : Fin n → ℚ) (dt : ℚ)
    (wf : String → ℚ) (ef : String → ErrFn n)
    (hw : ∀ t ∈ s.tasks, alookup s.weights t = some (wf t))
    (he : ∀ t ∈ s.tasks, alookup s.errors t = some (ef t))
    (N n2 : ℕ) (sv : VelocitySolver N n2) (dt2 : ℚ) :
    DiffIKSolver.compute_cost s q qd dt =
      some ((s.tasks.map (fun t => wf t * sqnorm (ef t q qd dt))).sum) ∧
    VelocitySolver.compute_cost sv dt2 =
      (sv.tasks.map (fun p => p.2.weight * sqnorm (p.2.residual dt2))).sum := by
  constructor
  · have hterm : ∀ t ∈ s.tasks, DiffIKSolver.costOf s q qd dt t =
        some (wf t * sqnorm (ef t q qd dt)) := by
      intro t ht
      simp only [DiffIKSolver.costOf, hw t ht, he t ht]
      rfl
    calc DiffIKSolver.compute_cost s q qd dt
        = some (0 + (s.tasks.map (fun t => wf t * sqnorm (ef t q qd dt))).sum) :=
          foldlM_option_add_sum _ _ s.tasks hterm 0
      _ = _ := by rw [zero_add]
  · rfl

/-- Witness for C6: on the sample solvers the cost evaluates to the expected
concrete value `2 · 3² = 18`. -/
theorem claim6_witness :
    DiffIKSolver.compute_cost sampleDiff (fun _ => 0) (fun _ => 0) 1 = some 18 ∧
    VelocitySolver.compute_cost sampleVS 1 = 18 := by
  have h := claim6_compute_cost 1 sampleDiff (fun _ => 0) (fun _ => 0) 1
    (fun _ => 2) (fun _ => sampleErr3)
    (by intro t ht; have ht2 := List.mem_singleton.mp ht; subst ht2; rfl)
    (by intro t ht; have ht2 := List.mem_singleton.mp ht; subst ht2; rfl)
    1 1 sampleVS 1
  constructor
  · rw [h.1]
    refine congrArg some ?_
    simp [sampleDiff, sqnorm, sampleErr3]
    norm_num
  · rw [h.2]
    simp [sampleVS, sampleIKTask, sqnorm]
    norm_num

/-- C9: for a name absent from the registry, `get_task` warns and returns an
absent result, `remove_task` (in both solvers) warns and leaves the state
unchanged; the return types of all three operations have no exception
component, so none of them can raise. -/
theorem claim9_missing_name_soft
    (N n : ℕ) (sv : VelocitySolver N n) (name : String)
    (h : alookup sv.tasks name = none)
    (n2 : ℕ) (sd : DiffIKSolver n2) (name2 : String) (h2 : name2 ∉ sd.tasks) :
    VelocitySolver.get_task sv name = (none, ["no task with name " ++ name]) ∧
    VelocitySolver.remove_task sv name =
      (sv, ["no task " ++ name ++ " to remove"]) ∧
    DiffIKSolver.remove_task sd name2 =
      (sd, ["no task " ++ name2 ++ " to remove"]) := by
  refine ⟨?_, ?_, ?_⟩
  · unfold VelocitySolver.get_task
    rw [h]
  · unfold VelocitySolver.remove_task
    rw [h]
    rfl
  · unfold DiffIKSolver.remove_task
    rw [if_neg h2]

/-- Witness for C9: the sample solvers with empty registries at the name
`ghost`. -/
theorem claim9_witness :
    VelocitySolver.get_task sampleVSEmpty "ghost" =
      (none, ["no task with name " ++ "ghost"]) ∧
    VelocitySolver.remove_task sampleVSEmpty "ghost" =
      (sampleVSEmpty, ["no task " ++ "ghost" ++ " to remove"]) ∧
    DiffIKSolver.remove_task sampleEmptyDiff "ghost" =
      (sampleEmptyDiff, ["no task " ++ "ghost" ++ " to remove"]) :=
  claim9_missing_name_soft 1 1 sampleVSEmpty "ghost" rfl
    1 sampleEmptyDiff "ghost" (by simp [sampleEmptyDiff, DiffIKSolver.init])

/-- C10: removing a registered task deletes only its `tasks` entry — the
error, Jacobian, gain and weight dicts are untouched — and afterwards the
task contributes to neither `compute_cost` nor the velocity-loop assembly,
both of which fold over `tasks` alone. -/
theorem claim10_remove_frame
    (n : ℕ) (s : DiffIKSolver n) (name : String) (h : name ∈ s.tasks)
    (q qd : Fin n → ℚ) (dt : ℚ) :
    (DiffIKSolver.remove_task s name).1.tasks = serase s.tasks name ∧
    (DiffIKSolver.remove_task s name).1.errors = s.errors ∧
    (DiffIKSolver.remove_task s name).1.jacobians = s.jacobians ∧
    (DiffIKSolver.remove_task s name).1.gains = s.gains ∧
    (DiffIKSolver.remove_task s name).1.weights = s.weights ∧
    name ∉ (DiffIKSolver.remove_task s name).1.tasks ∧
    DiffIKSolver.compute_cost (DiffIKSolver.remove_task s name).1 q qd dt =
      (serase s.tasks name).foldlM
        (fun acc t => (DiffIKSolver.costOf s q qd dt t).map (acc + ·)) 0 ∧
    DiffIKSolver.assemble (DiffIKSolver.remove_task s name).1 q qd dt =
      (serase s.tasks name).foldlM
        (fun acc t => (DiffIKSolver.taskTerm s q qd dt t).map (acc + ·)) (0, 0) := by
  have hr : DiffIKSolver.remove_task s name =
      ({ s with tasks := serase s.tasks name }, []) := by
    unfold DiffIKSolver.remove_task
    rw [if_pos h]
  rw [hr]
  exact ⟨rfl, rfl, rfl, rfl, rfl, not_mem_serase_self _ _, rfl, rfl⟩

/-- Witness for C10: removing the sample task `t`. -/
theorem claim10_witness :
    (DiffIKSolver.remove_task sampleDiff "t").1.tasks = serase sampleDiff.tasks "t" ∧
    (DiffIKSolver.remove_task sampleDiff "t").1.errors = sampleDiff.errors ∧
    (DiffIKSolver.remove_task sampleDiff "t").1.jacobians = sampleDiff.jacobians ∧
    (DiffIKSolver.remove_task sampleDiff "t").1.gains = sampleDiff.gains ∧
    (DiffIKSolver.remove_task sampleDiff "t").1.weights = sampleDiff.weights ∧
    "t" ∉ (DiffIKSolver.remove_task sampleDiff "t").1.tasks ∧
    DiffIKSolver.compute_cost (DiffIKSolver.remove_task sampleDiff "t").1
      (fun _ => 0) (fun _ => 0) 1 =
      (serase sampleDiff.tasks "t").foldlM
        (fun acc t =>
          (DiffIKSolver.costOf sampleDiff (fun _ => 0) (fun _ => 0) 1 t).map
            (acc + ·)) 0 ∧
    DiffIKSolver.assemble (DiffIKSolver.remove_task sampleDiff "t").1
      (fun _ => 0) (fun _ => 0) 1 =
      (serase sampleDiff.tasks "t").foldlM
        (fun acc t =>
          (DiffIKSolver.taskTerm sampleDiff (fun _ => 0) (fun _ => 0) 1 t).map
            (acc + ·)) (0, 0) :=
  claim10_remove_frame 1 sampleDiff "t" (by decide) (fun _ => 0) (fun _ => 0) 1

/-- Counterexample for C3: in the `DiffIKSolver` the position-aware bound is
not divided by `dt`.  With `q_max = 2`, `q = 0`, `K = 1`, constant cap `10`
and `dt = 2`, the code computes `min(10, 2) = 2` while the claimed formula
gives `min(10, 2/2) = 1`. -/
theorem claim3_counterexample :
    DiffIKSolver.qdMaxBound sampleDiffBounds (fun _ => 0) ≠
      specQdMax sampleDiffBounds.qd_max sampleDiffBounds.K_doflim
        sampleDiffBounds.q_max (fun _ => 0) 2 := by
  intro hcontra
  have h0 := congrFun hcontra 0
  simp [DiffIKSolver.qdMaxBound, specQdMax, sampleDiffBounds,
    DiffIKSolver.init] at h0
  norm_num at h0

/-- C3 (amended): the `VelocitySolver` derives the per-joint bounds as
`qd_max = min(constant, K·(q_max − q)/dt)` and
`qd_min = max(constant, K·(q_min − q)/dt)` elementwise; the `DiffIKSolver`
uses the same formulas but without the division by `dt` (equivalently, the
spec formula at `dt = 1`). -/
theorem claim3_amended_doflim_bounds
    (N n : ℕ) (sv : VelocitySolver N n) (rq : Fin N → ℚ) (dt : ℚ)
    (_hdt : 0 < dt)
    (n2 : ℕ) (sd : DiffIKSolver n2) (q : Fin n2 → ℚ) :
    (VelocitySolver.compute_qp_common sv rq dt).2.1 =
      specQdMax sv.qd_max sv.doflim_gain sv.q_max
        (fun i => rq (sv.active_dofs i)) dt ∧
    (VelocitySolver.compute_qp_common sv rq dt).2.2 =
      specQdMin sv.qd_min sv.doflim_gain sv.q_min
        (fun i => rq (sv.active_dofs i)) dt ∧
    DiffIKSolver.qdMaxBound sd q =
      specQdMax sd.qd_max sd.K_doflim sd.q_max q 1 ∧
    DiffIKSolver.qdMinBound sd q =
      specQdMin sd.qd_min sd.K_doflim sd.q_min q 1 := by
  refine ⟨rfl, rfl, ?_, ?_⟩
  · funext i
    simp [DiffIKSolver.qdMaxBound, specQdMax]
  · funext i
    simp [DiffIKSolver.qdMinBound, specQdMin]

/-- Witness for C3 (amended) at `dt = 2` on the sample solvers. -/
theorem claim3_witness :
    (0 : ℚ) < 2 ∧
    (VelocitySolver.compute_qp_common sampleVS (fun _ => 0) 2).2.1 =
      specQdMax sampleVS.qd_max sampleVS.doflim_gain sampleVS.q_max
        (fun i => (fun _ => (0 : ℚ)) (sampleVS.active_dofs i)) 2 ∧
    DiffIKSolver.qdMaxBound sampleDiffBounds (fun _ => 0) =
      specQdMax sampleDiffBounds.qd_max sampleDiffBounds.K_doflim
        sampleDiffBounds.q_max (fun _ => 0) 1 :=
  ⟨by norm_num,
   (claim3_amended_doflim_bounds 1 1 sampleVS (fun _ => 0) 2 (by norm_num)
     1 sampleDiffBounds (fun _ => 0)).1,
   (claim3_amended_doflim_bounds 1 1 sampleVS (fun _ => 0) 2 (by norm_num)
     1 sampleDiffBounds (fun _ => 0)).2.2.1⟩

/-- Counterexample for C4: the `DiffIKSolver` performs no translation — when
the external solver fails with the not-positive-definite `ValueError`, its
`compute_velocity` surfaces that very `ValueError`, not the rank-deficiency
domain error. -/
theorem claim4_counterexample :
    DiffIKSolver.compute_velocity extFailNotPosDef sampleEmptyDiff
      (fun _ => 0) (fun _ => 0) 1 =
      .error (.valueError [VelocitySolver.notPosDefMsg]) ∧
    DiffIKSolver.compute_velocity extFailNotPosDef sampleEmptyDiff
      (fun _ => 0) (fun _ => 0) 1 ≠
      .error (.ikError VelocitySolver.rankDeficiencyMsg) := by
  constructor
  · rfl
  · intro hc
    rw [show DiffIKSolver.compute_velocity extFailNotPosDef sampleEmptyDiff
        (fun _ => 0) (fun _ => 0) 1 =
        .error (.valueError [VelocitySolver.notPosDefMsg]) from rfl] at hc
    exact absurd hc (by simp)

/-- C4 (amended): in the `VelocitySolver` a `ValueError` carrying the
external solver's not-positive-definite message is translated into the
`IKError` with the regularization hint, any other `ValueError` is re-raised
as-is, and non-`ValueError` failures propagate unchanged; the `DiffIKSolver`
has no such translation — its velocity computation returns the external
call's outcome directly, so every failure propagates unchanged. -/
theorem claim4_amended_failure_translation
    (N n : ℕ) (sv : VelocitySolver N n) (args : List String) (e : PyExc)
    (hne : ∀ a, e ≠ PyExc.valueError a)
    (n2 : ℕ) (ext : ExtSolver) (sd : DiffIKSolver n2) (q qd : Fin n2 → ℚ)
    (dt : ℚ) (P : Fin n2 → Fin n2 → ℚ) (r : Fin n2 → ℚ)
    (hasm : DiffIKSolver.assemble sd q qd dt = some (P, r)) :
    VelocitySolver.rankDeficiencyMsg =
      "rank deficiency. Did you add a regularization task?" ∧
    (args.contains VelocitySolver.notPosDefMsg = true →
      (VelocitySolver.solve_qp_step sv (.error (.valueError args))).2 =
        .error (.ikError VelocitySolver.rankDeficiencyMsg)) ∧
    (args.contains VelocitySolver.notPosDefMsg = false →
      (VelocitySolver.solve_qp_step sv (.error (.valueError args))).2 =
        .error (.valueError args)) ∧
    (VelocitySolver.solve_qp_step sv (.error e)).2 = .error e ∧
    DiffIKSolver.compute_velocity ext sd q qd dt =
      ext (matToList P) (vecToList r) (eyeL n2 ++ negL (eyeL n2))
        (vecToList (DiffIKSolver.qdMaxBound sd q) ++
         vecToList (fun i => -(DiffIKSolver.qdMinBound sd q i))) := by
  refine ⟨rfl, ?_, ?_, ?_, ?_⟩
  · intro hc
    have hmem : VelocitySolver.notPosDefMsg ∈ args := by simpa using hc
    simp [VelocitySolver.solve_qp_step, Except.bind, hmem]
  · intro hc
    have hmem : VelocitySolver.notPosDefMsg ∉ args := by simpa using hc
    simp [VelocitySolver.solve_qp_step, Except.bind, hmem]
  · cases e with
    | valueError a => exact absurd rfl (hne a)
    | duplicateTask m => rfl
    | missingGain m => rfl
    | missingWeight m => rfl
    | invalidGain m => rfl
    | invalidWeight m => rfl
    | keyError k => rfl
    | ikError m => rfl
    | typeError m => rfl
  · unfold DiffIKSolver.compute_velocity
    rw [hasm]

/-- Witness for C4 (amended): concrete translation, re-raise, passthrough and
no-translation outcomes. -/
theorem claim4_witness :
    (VelocitySolver.solve_qp_step sampleVSEmpty
      (.error (.valueError [VelocitySolver.notPosDefMsg]))).2 =
      .error (.ikError VelocitySolver.rankDeficiencyMsg) ∧
    (VelocitySolver.solve_qp_step sampleVSEmpty
      (.error (.valueError ["some other failure"]))).2 =
      .error (.valueError ["some other failure"]) ∧
    (VelocitySolver.solve_qp_step sampleVSEmpty
      (.error (.keyError "boom"))).2 = .error (.keyError "boom") ∧
    DiffIKSolver.compute_velocity extFailNotPosDef sampleEmptyDiff
      (fun _ => 0) (fun _ => 0) 1 =
      extFailNotPosDef (matToList (0 : Fin 1 → Fin 1 → ℚ))
        (vecToList (0 : Fin 1 → ℚ))
        (eyeL 1 ++ negL (eyeL 1))
        (vecToList (DiffIKSolver.qdMaxBound sampleEmptyDiff (fun _ => 0)) ++
         vecToList (fun i =>
           -(DiffIKSolver.qdMinBound sampleEmptyDiff (fun _ => 0) i))) := by
  have h := claim4_amended_failure_translation 1 1 sampleVSEmpty
    [VelocitySolver.notPosDefMsg] (.keyError "boom") (by intro a; simp)
    1 extFailNotPosDef sampleEmptyDiff (fun _ => 0) (fun _ => 0) 1 0 0 rfl
  have h2 := claim4_amended_failure_translation 1 1 sampleVSEmpty
    ["some other failure"] (.keyError "boom") (by intro a; simp)
    1 extFailNotPosDef sampleEmptyDiff (fun _ => 0) (fun _ => 0) 1 0 0 rfl
  exact ⟨h.2.1 (by decide), h2.2.2.1 (by decide), h.2.2.2.1, h.2.2.2.2⟩

/-- Counterexample for C8: `method` has no default — a call omitting it is a
`TypeError`, not the fast strategy's result. -/
theorem claim8_counterexample :
    (VelocitySolver.compute_velocity_call extEmptyOk sampleVSEmpty
      (fun _ => 0) 1 none).2 =
      .error (.typeError "compute_velocity takes exactly 3 arguments (2 given)") ∧
    (VelocitySolver.compute_velocity_fast extEmptyOk sampleVSEmpty
      (fun _ => 0) 1).2 =
      .error (.valueError ["could not broadcast input array"]) ∧
    (VelocitySolver.compute_velocity_call extEmptyOk sampleVSEmpty
      (fun _ => 0) 1 none).2 ≠
      (VelocitySolver.compute_velocity_fast extEmptyOk sampleVSEmpty
        (fun _ => 0) 1).2 := by
  refine ⟨rfl, ?_, ?_⟩
  · rfl
  · intro hc
    rw [show (VelocitySolver.compute_velocity_call extEmptyOk sampleVSEmpty
        (fun _ => 0) 1 none).2 =
        .error (.typeError "compute_velocity takes exactly 3 arguments (2 given)")
        from rfl,
      show (VelocitySolver.compute_velocity_fast extEmptyOk sampleVSEmpty
        (fun _ => 0) 1).2 =
        .error (.valueError ["could not broadcast input array"]) from rfl] at hc
    exact absurd hc (by simp)

/-- C8 (amended): the entry point dispatches on `method`: the value `fast`
selects the direct box-constraint strategy and every other value — including
`safe` — selects the margin-relaxed strategy with its default margins; there
is no default for `method` (omitting it is a `TypeError`); both strategies
consume exactly the output of the shared assembly `compute_qp_common`. -/
theorem claim8_amended_dispatch
    (N n : ℕ) (ext : ExtSolver) (sv : VelocitySolver N n) (rq : Fin N → ℚ)
    (dt : ℚ) (m : String) (hm : m ≠ "fast") (mr ml : ℚ) :
    VelocitySolver.compute_velocity ext sv rq dt "fast" =
      VelocitySolver.compute_velocity_fast ext sv rq dt ∧
    VelocitySolver.compute_velocity ext sv rq dt m =
      VelocitySolver.compute_velocity_safe ext sv rq dt
        VelocitySolver.margin_reg_default VelocitySolver.margin_lin_default ∧
    (VelocitySolver.compute_velocity_call ext sv rq dt none).2 =
      .error (.typeError "compute_velocity takes exactly 3 arguments (2 given)") ∧
    VelocitySolver.compute_velocity_fast ext sv rq dt =
      VelocitySolver.solve_qp_step sv
        (ext (matToList (VelocitySolver.compute_qp_common sv rq dt).1.1)
          (vecToList (VelocitySolver.compute_qp_common sv rq dt).1.2)
          (eyeL n ++ negL (eyeL n))
          (vecToList (VelocitySolver.compute_qp_common sv rq dt).2.1 ++
           vecToList (fun i =>
             -((VelocitySolver.compute_qp_common sv rq dt).2.2 i)))) ∧
    VelocitySolver.compute_velocity_safe ext sv rq dt mr ml =
      VelocitySolver.solve_qp_step sv
        (ext
          (hcatL (matToList (VelocitySolver.compute_qp_common sv rq dt).1.1)
              (zerosL n n) ++
            hcatL (zerosL n n) (smulL mr (eyeL n)))
          (vecToList (VelocitySolver.compute_qp_common sv rq dt).1.2 ++
            (List.range n).map (fun _ => -ml))
          (hcatL (eyeL n) (smulL (1 / dt) (eyeL n)) ++
            hcatL (negL (eyeL n)) (smulL (1 / dt) (eyeL n)) ++
            hcatL (zerosL n n) (negL (eyeL n)))
          (vecToList (VelocitySolver.compute_qp_common sv rq dt).2.1 ++
            vecToList (fun i =>
              -((VelocitySolver.compute_qp_common sv rq dt).2.2 i)) ++
            (List.range n).map (fun _ => (0 : ℚ)))) := by
  refine ⟨?_, ?_, rfl, rfl, rfl⟩
  · simp [VelocitySolver.compute_velocity]
  · simp [VelocitySolver.compute_velocity, hm]

/-- Witness for C8 (amended): the dispatch equations on the sample solver at
the method string `safe`. -/
theorem claim8_witness :
    VelocitySolver.compute_velocity extEmptyOk sampleVSEmpty (fun _ => 0) 1
        "fast" =
      VelocitySolver.compute_velocity_fast extEmptyOk sampleVSEmpty
        (fun _ => 0) 1 ∧
    VelocitySolver.compute_velocity extEmptyOk sampleVSEmpty (fun _ => 0) 1
        "safe" =
      VelocitySolver.compute_velocity_safe extEmptyOk sampleVSEmpty
        (fun _ => 0) 1 VelocitySolver.margin_reg_default
        VelocitySolver.margin_lin_default := by
  have h := claim8_amended_dispatch 1 1 extEmptyOk sampleVSEmpty (fun _ => 0) 1
    "safe" (by decide) 1 1
  exact ⟨h.1, h.2.1⟩

/-- The gain tolerance is the rational `1 + 1e-10` of the source. -/
theorem onePlusEps_eq :
    DiffIKSolver.onePlusEps = 1 + 1 / 10000000000 := by
  norm_num [DiffIKSolver.onePlusEps, Rat.mkRat_eq_div]

/-- Counterexample for C2: registering a task with gain `3/2` (and weight 1)
raises the invalid-gain error, but the registry is modified — the task's name
is inserted before validation and is still visible after the failed call. -/
theorem claim2_counterexample :
    (DiffIKSolver.add_task sampleEmptyDiff "t" sampleErr0 sampleJac0
      (some (mkRat 3 2)) (some 1) none false).2 =
      some (.invalidGain DiffIKSolver.invalidGainMsg) ∧
    "t" ∈ (DiffIKSolver.add_task sampleEmptyDiff "t" sampleErr0 sampleJac0
      (some (mkRat 3 2)) (some 1) none false).1.tasks := by
  decide

/-- C2 (amended): a validation failure is raised at add-time, but the
registry is not left unmodified: the name, error and Jacobian entries are
inserted before validation, so after a failed registration with an
out-of-tolerance gain the lookup and iteration still see the task. -/
theorem claim2_amended_failed_add_leaves_entries
    (n : ℕ) (s : DiffIKSolver n) (name : String) (e : ErrFn n) (j : JacFn n)
    (g w : ℚ) (tt : Option String)
    (hf : name ∉ s.tasks) (hg : DiffIKSolver.onePlusEps ≤ g) :
    (DiffIKSolver.add_task s name e j (some g) (some w) tt false).2 =
      some (.invalidGain DiffIKSolver.invalidGainMsg) ∧
    name ∈ (DiffIKSolver.add_task s name e j (some g) (some w) tt
      false).1.tasks ∧
    alookup (DiffIKSolver.add_task s name e j (some g) (some w) tt
      false).1.errors name = some e := by
  have hng : ¬ (g < DiffIKSolver.onePlusEps) := not_lt.mpr hg
  refine ⟨?_, ?_, ?_⟩ <;>
    simp [DiffIKSolver.add_task, if_neg hf, DiffIKSolver.gainStep,
      DiffIKSolver.weightStep, alookup_ainsert_self, hng]

/-- Witness for C2 (amended) at gain `3/2`, weight `1`. -/
theorem claim2_witness :
    (DiffIKSolver.add_task sampleEmptyDiff "u" sampleErr0 sampleJac0
      (some (3/2)) (some 1) none false).2 =
      some (.invalidGain DiffIKSolver.invalidGainMsg) ∧
    "u" ∈ (DiffIKSolver.add_task sampleEmptyDiff "u" sampleErr0 sampleJac0
      (some (3/2)) (some 1) none false).1.tasks ∧
    alookup (DiffIKSolver.add_task sampleEmptyDiff "u" sampleErr0 sampleJac0
      (some (3/2)) (some 1) none false).1.errors "u" = some sampleErr0 :=
  claim2_amended_failed_add_leaves_entries 1 sampleEmptyDiff "u" sampleErr0
    sampleJac0 (3/2) 1 none (by decide)
    (by norm_num [DiffIKSolver.onePlusEps, Rat.mkRat_eq_div])

/-- C5: gain and weight are each resolved by the ordered chain — explicit
value, else per-name default, else per-`task_type` default, else a
missing-gain / missing-weight error whose message carries the `task_type`
clause when one was provided.  (Gain resolution is skipped for unit-gain
tasks; weight resolution runs once the gain stage has passed.) -/
theorem claim5_default_resolution
    (n : ℕ) (s s2 : DiffIKSolver n) (name : String) (e : ErrFn n) (j : JacFn n)
    (gain weight : Option ℚ) (tt : Option String) (ug : Bool)
    (er : Option PyExc)
    (h : DiffIKSolver.add_task s name e j gain weight tt ug = (s2, er))
    (hf : name ∉ s.tasks) :
    (ug = false → ∀ gv, specResolve gain name tt s.default_gains = some gv →
       alookup s2.gains name = some gv) ∧
    (ug = false → specResolve gain name tt s.default_gains = none →
       er = some (.missingGain (DiffIKSolver.noGainMsg name tt))) ∧
    ((ug = true ∨ (specResolve gain name tt s.default_gains).isSome = true) →
       (∀ wv, specResolve weight name tt s.default_weights = some wv →
          alookup s2.weights name = some wv) ∧
       (specResolve weight name tt s.default_weights = none →
          er = some (.missingWeight (DiffIKSolver.noWeightMsg name tt)))) ∧
    (∀ t, DiffIKSolver.noGainMsg name (some t) =
       DiffIKSolver.noGainMsg name none ++ " (task_type=" ++ t ++ ")") ∧
    (∀ t, DiffIKSolver.noWeightMsg name (some t) =
       DiffIKSolver.noWeightMsg name none ++ " (task_type=" ++ t ++ ")") := by
  obtain ⟨h1, h2, h3⟩ := add_task_entries h hf
  refine ⟨h1, h2, h3, ?_, ?_⟩
  · intro t
    simp [DiffIKSolver.noGainMsg, String.append_assoc]
  · intro t
    simp [DiffIKSolver.noWeightMsg, String.append_assoc]

/-- Witness for C5: with no explicit values and no per-name defaults, the
per-`task_type` defaults `posture ↦ (1/2, 3)` are taken. -/
theorem claim5_witness :
    alookup (DiffIKSolver.add_task sampleC5 "p" sampleErr0 sampleJac0 none
      none (some "posture") false).1.gains "p" = some (1/2) ∧
    alookup (DiffIKSolver.add_task sampleC5 "p" sampleErr0 sampleJac0 none
      none (some "posture") false).1.weights "p" = some 3 ∧
    DiffIKSolver.noGainMsg "p" (some "posture") =
      DiffIKSolver.noGainMsg "p" none ++ " (task_type=" ++ "posture" ++ ")" := by
  have h := claim5_default_resolution 1 sampleC5
    (DiffIKSolver.add_task sampleC5 "p" sampleErr0 sampleJac0 none none
      (some "posture") false).1
    "p" sampleErr0 sampleJac0 none none (some "posture") false
    (DiffIKSolver.add_task sampleC5 "p" sampleErr0 sampleJac0 none none
      (some "posture") false).2
    rfl (by decide)
  refine ⟨h.1 rfl (1/2) rfl, ?_, h.2.2.2.1 "posture"⟩
  exact (h.2.2.1 (Or.inr rfl)).1 3 rfl

/-- Counterexample for C7: a registration with gain `−1` is accepted — the
code enforces no lower gain bound — so a registered non-unit-gain task can
carry a gain outside `[0, 1]`. -/
theorem claim7_counterexample :
    (DiffIKSolver.add_task sampleEmptyDiff "t" sampleErr0 sampleJac0
      (some (-1)) (some 1) none false).2 = none ∧
    alookup (DiffIKSolver.add_task sampleEmptyDiff "t" sampleErr0 sampleJac0
      (some (-1)) (some 1) none false).1.gains "t" = some (-1) ∧
    "t" ∈ (DiffIKSolver.add_task sampleEmptyDiff "t" sampleErr0 sampleJac0
      (some (-1)) (some 1) none false).1.tasks ∧
    ¬ ((0 : ℚ) ≤ -1) := by
  decide

/-- C7 (amended): after any sequence of registry operations in which no
operation raised, every registered task either has no gain entry (unit-gain)
or a gain below `1 + 1e-10` — no lower bound is enforced — and has a strictly
positive weight entry. -/
theorem claim7_amended_registry_invariant
    (n : ℕ) (s : DiffIKSolver n) (ops : List (RegOp n))
    (hs : GainWeightInv s) (hok : (runOps s ops).2 = true) :
    GainWeightInv (runOps s ops).1 :=
  runOps_fold_inv ops s true hs hok

/-- Witness for C7 (amended): one successful add on the fresh solver. -/
theorem claim7_witness :
    GainWeightInv sampleEmptyDiff ∧
    (runOps sampleEmptyDiff
      [RegOp.add "t" sampleErr0 sampleJac0 (some (mkRat 1 2)) (some 1) none
        false]).2 = true ∧
    GainWeightInv (runOps sampleEmptyDiff
      [RegOp.add "t" sampleErr0 sampleJac0 (some (mkRat 1 2)) (some 1) none
        false]).1 := by
  have h1 : GainWeightInv sampleEmptyDiff := by
    intro name hname
    simp [sampleEmptyDiff, DiffIKSolver.init] at hname
  have h2 : (runOps sampleEmptyDiff
      [RegOp.add "t" sampleErr0 sampleJac0 (some (mkRat 1 2)) (some 1) none
        false]).2 = true := by decide
  exact ⟨h1, h2, claim7_amended_registry_invariant 1 sampleEmptyDiff _ h1 h2⟩
